import Mathlib

/-!
# pingu: the interface registry (`pingu_iface.c`)

A shallow embedding of the interface registry of the pingu daemon and the
properties of it that the specification states.

Conventions of the embedding.

* A C string (a `const char *` argument or the contents of a `char name[N]`
  buffer) is the list of its bytes before the terminating NUL; a `const char *`
  that may be `NULL` is an `Option` of such a list.
* `int` values are `Int`; truth values stored in `int` fields are non-zero /
  zero, as in C.
* A `struct pingu_iface *` is the address of the object; the registry
  `iface_list` is the list of its entries in iteration order, every entry
  being an address together with the object stored there.
* The results of system calls (`setsockopt`, `socket`, `calloc`) are inputs
  of the functions that make the call.
* Code whose behaviour C leaves undefined (a store through `NULL`, a copy
  that runs past its destination) returns `none`.
-/

namespace Pingu

/-! ## Data model -/

/-- The address family `AF_INET` of the socket interface. -/
def AF_INET : Int := 2

/-- A `struct sockaddr`: the 16-bit family followed by 14 bytes of data.  Seen
as a `struct sockaddr_in`, bytes 0-1 of `sa_data` are the port, bytes 2-5 the
IPv4 address `sin_addr`, and bytes 6-13 the padding. -/
structure sockaddr where
  sa_family : Nat
  sa_data : List Nat
deriving DecidableEq, Repr

/-- The all-zero address that `memset` and `calloc` produce. -/
def sockaddr_zero : sockaddr :=
  { sa_family := 0, sa_data := List.replicate 14 0 }

/-- The lines that the functions of `pingu_iface.c` hand to the logger. -/
inductive LogMsg where
  | perror_calloc : LogMsg
  | perror_socket : LogMsg
  | perror_name (name : List Nat) : LogMsg
  | debug_address_removed (name : List Nat) : LogMsg
  | debug_new_address (name : List Nat) (addr : List Nat) : LogMsg
deriving DecidableEq, Repr

/-- The fields of `struct pingu_iface` that `pingu_iface.c` reads or writes.
`ping_list` is the set of hosts probed through the interface. -/
structure pingu_iface where
  name : List Nat
  index : Int
  has_link : Int
  has_binding : Int
  fd : Int
  primary_addr : sockaddr
  route_table : Int
  ping_list : List Nat
deriving DecidableEq, Repr

/-- The fields of `struct pingu_host` that `pingu_iface_init` reads or writes:
the configured interface name (`NULL` when none is configured) and the
pointer to the owning interface. -/
structure pingu_host where
  interface : Option (List Nat)
  iface : Option Nat
deriving DecidableEq, Repr

/-- The process state that `pingu_iface.c` touches: the global `iface_list`,
the descriptors on which a read watcher has been started, and the log. -/
structure State where
  iface_list : List (Nat × pingu_iface)
  watchers : List Int
  log : List LogMsg
deriving DecidableEq, Repr

/-! ## C library functions -/

/-- The comparison `strncmp(s, t, n)`: at most `n` bytes are compared, the
terminating NUL included; the result is zero exactly when no difference is
found. -/
def strncmp : List Nat → List Nat → Nat → Int
  | _, _, 0 => 0
  | [], [], _ + 1 => 0
  | [], _ :: _, _ + 1 => -1
  | _ :: _, [], _ + 1 => 1
  | a :: s, b :: t, n + 1 =>
    if a = b then strncmp s t n else if a < b then -1 else 1

/-- The contents of a buffer of `size` bytes after `strlcpy(dst, src, size)`:
at most `size - 1` bytes of `src`, then the NUL. -/
def strlcpy (src : List Nat) (size : Nat) : List Nat :=
  src.take (size - 1)

/-- The object that `calloc(1, sizeof(struct pingu_iface))` returns: every
field zero. -/
def calloc_iface : pingu_iface :=
  { name := [], index := 0, has_link := 0, has_binding := 0, fd := 0,
    primary_addr := sockaddr_zero, route_table := 0, ping_list := [] }

/-- The address of a freshly allocated object: one that no entry of the
registry has. -/
def fresh_addr : List (Nat × pingu_iface) → Nat
  | [] => 1
  | e :: l => max (e.1 + 1) (fresh_addr l)

/-- Modelled from the spec: `list.h` is not among the sources.  The registry
is the collection that "owns one entry per monitored network interface";
`list_add(new, head)` links the new entry right behind the list head, so it
is the first one that `list_for_each_entry` visits. -/
def list_add (e : Nat × pingu_iface) (l : List (Nat × pingu_iface)) :
    List (Nat × pingu_iface) :=
  e :: l

/-! ## The functions of `pingu_iface.c` -/

/-- The function `pingu_iface_bind_socket`; `r` is what `setsockopt` returns
for `SO_BINDTODEVICE` when it is called.  The result is the return value, the
interface afterwards and the lines logged. -/
def pingu_iface_bind_socket (iface : pingu_iface) (log_error : Int) (r : Int) :
    Int × pingu_iface × List LogMsg :=
  if iface.name = [] then (0, iface, [])
  else
    (r, { iface with has_binding := if r = 0 then 1 else 0 },
      if r < 0 ∧ log_error ≠ 0 then [LogMsg.perror_name iface.name] else [])

/-- The function `pingu_iface_init_socket`; `sock` is what `socket` returns. -/
def pingu_iface_init_socket (s : State) (iface : pingu_iface) (sock : Int) :
    Int × pingu_iface × State :=
  if sock < 0 then
    (-1, { iface with fd := sock }, { s with log := s.log ++ [LogMsg.perror_socket] })
  else
    (0, { iface with fd := sock }, { s with watchers := s.watchers ++ [sock] })

/-- The function `pingu_iface_usable`. -/
def pingu_iface_usable (iface : pingu_iface) : Int :=
  if iface.name = [] then 1
  else if iface.has_link ≠ 0 ∧ iface.has_binding ≠ 0 then 1 else 0

/-- The test that `pingu_iface_get_by_name` applies to one entry; `namesz` is
`sizeof(iface->name)`. -/
def name_matches (namesz : Nat) (name : Option (List Nat)) (iface : pingu_iface) : Bool :=
  match name with
  | none => iface.name.head? == some 10
  | some n => strncmp n iface.name namesz == 0

/-- The function `pingu_iface_get_by_name`: the first entry of the registry
that passes the test, or `NULL`. -/
def pingu_iface_get_by_name (namesz : Nat) (s : State) (name : Option (List Nat)) :
    Option Nat × State :=
  ((s.iface_list.find? (fun e => name_matches namesz name e.2)).map Prod.fst, s)

/-- The function `pingu_iface_get_by_index`: the first entry of the registry
with the given kernel index, or `NULL`. -/
def pingu_iface_get_by_index (s : State) (index : Int) : Option Nat × State :=
  ((s.iface_list.find? (fun e => decide (e.2.index = index))).map Prod.fst, s)

/-- The function `pingu_iface_new`; `calloc_ok` tells whether `calloc` returns
memory and `sock` is what `socket` returns, should they be called. -/
def pingu_iface_new (namesz : Nat) (s : State) (name : Option (List Nat))
    (calloc_ok : Bool) (sock : Int) : Option Nat × State :=
  match (pingu_iface_get_by_name namesz s name).1 with
  | some p => (some p, s)
  | none =>
    if calloc_ok = false then
      (none, { s with log := s.log ++ [LogMsg.perror_calloc] })
    else
      let iface0 : pingu_iface :=
        match name with
        | some n => { calloc_iface with name := strlcpy n namesz }
        | none => calloc_iface
      match pingu_iface_init_socket s iface0 sock with
      | (r, iface1, s1) =>
        if r = -1 then (none, s1)
        else
          (some (fresh_addr s1.iface_list),
            { s1 with
              iface_list :=
                list_add (fresh_addr s1.iface_list, { iface1 with ping_list := [] })
                  s1.iface_list })

/-- The function `pingu_iface_set_addr`.  The address is cleared; for a
positive `len` the family is stored (truncated to the 16 bits of
`sa_family_t`) and, for `AF_INET`, `len` bytes of `data` are copied to
`sin_addr`, which is byte 2 of `sa_data`.  The copy is defined when `data`
holds `len` bytes and they fit into the 12 bytes that remain of the
`struct sockaddr`. -/
def pingu_iface_set_addr (iface : pingu_iface) (family : Int) (data : List Nat)
    (len : Int) : Option (pingu_iface × List LogMsg) :=
  if len ≤ 0 then
    some ({ iface with primary_addr := sockaddr_zero },
      [LogMsg.debug_address_removed iface.name])
  else if family = AF_INET then
    if len.toNat ≤ 12 ∧ len.toNat ≤ data.length then
      let sa_data := [0, 0] ++ data.take len.toNat ++ List.replicate (12 - len.toNat) 0
      some ({ iface with
              primary_addr := { sa_family := (family % 65536).toNat, sa_data := sa_data } },
        [LogMsg.debug_new_address iface.name ((sa_data.drop 2).take 4)])
    else none
  else
    some ({ iface with
            primary_addr := { sa_family := (family % 65536).toNat,
                              sa_data := List.replicate 14 0 } }, [])

/-- The store `iface->route_table = v` through the pointer `p`. -/
def set_route_table (s : State) (p : Nat) (v : Int) : State :=
  { s with
    iface_list :=
      s.iface_list.map
        (fun e => if e.1 = p then (e.1, { e.2 with route_table := v }) else e) }

/-- The loop of `pingu_iface_init` over the host list.  `env n` gives, for the
`n`-th host still to be visited, what `calloc` and `socket` answer if
`pingu_iface_new` calls them for it; `autotbl` is the local counter.  The
result is the return value, the state and the host list afterwards; `none`
is the store through the `NULL` that `pingu_iface_new` returned. -/
def init_loop (namesz : Nat) :
    (Nat → Bool × Int) → Int → State → List pingu_host →
      Option (Int × State × List pingu_host)
  | _, _, s, [] => some (0, s, [])
  | env, autotbl, s, host :: rest =>
    let step : Option (Option Nat × State × Int) :=
      match (pingu_iface_get_by_name namesz s host.interface).1 with
      | some p => some (some p, s, autotbl)
      | none =>
        match pingu_iface_new namesz s host.interface (env 0).1 (env 0).2 with
        | (none, _) => none
        | (some p, s1) => some (some p, set_route_table s1 p autotbl, autotbl + 1)
    match step with
    | none => none
    | some (none, s1, _) => some (-1, s1, host :: rest)
    | some (some p, s1, autotbl1) =>
      match init_loop namesz (fun n => env (n + 1)) autotbl1 s1 rest with
      | none => none
      | some (r, s2, rest1) => some (r, s2, { host with iface := some p } :: rest1)

/-- The function `pingu_iface_init`: the loop started with `autotbl = 10`.
The counter is a C `int`; it cannot overflow, since every increment follows
a successful `socket` call whose descriptor stays open, and descriptors are
non-negative `int`s. -/
def pingu_iface_init (namesz : Nat) (env : Nat → Bool × Int) (s : State)
    (hosts : List pingu_host) : Option (Int × State × List pingu_host) :=
  init_loop namesz env 10 s hosts

/-! ## Vocabulary of the specification -/

/-- The state of a process that has not created any interface yet. -/
def State.empty : State := { iface_list := [], watchers := [], log := [] }

/-- Every `calloc` and every `socket` call succeeds. -/
def all_succeed (env : Nat → Bool × Int) : Prop :=
  ∀ n, (env n).1 = true ∧ 0 ≤ (env n).2

/-- The distinct elements of a list in order of first appearance. -/
def first_seen (l : List (List Nat)) : List (List Nat) :=
  l.foldl (fun acc a => if a ∈ acc then acc else acc ++ [a]) []

/-- The name `"eth0"`. -/
def eth0 : List Nat := [101, 116, 104, 48]


/-! ## Properties -/

theorem strncmp_eq_zero_iff (s t : List Nat) (n : Nat) :
    strncmp s t n = 0 ↔ s.take n = t.take n := by
  induction n generalizing s t with
  | zero => simp [strncmp]
  | succ n ih =>
    cases s with
    | nil => cases t <;> simp [strncmp]
    | cons a s =>
      cases t with
      | nil => simp [strncmp]
      | cons b t =>
        simp only [strncmp, List.take_succ_cons, List.cons.injEq]
        by_cases hab : a = b
        · simp [hab, ih]
        · simp only [hab, if_false, false_and, iff_false]
          split <;> decide

theorem fresh_addr_gt (l : List (Nat × pingu_iface)) :
    ∀ e ∈ l, e.1 < fresh_addr l := by
  induction l with
  | nil => simp
  | cons a l ih =>
    intro e he
    simp only [List.mem_cons] at he
    simp only [fresh_addr]
    rcases he with rfl | he
    · omega
    · have := ih e he
      omega

/-- C1: `pingu_iface_usable` returns non-zero if and only if the name is empty
or both `has_link` and `has_binding` are set; the value is 1 or 0; a device
named "eth0" without a binding is unusable whatever `has_link` is, and an
unnamed interface is usable whatever the two flags are. -/
theorem usable_iff_unnamed_or_link_and_binding (iface : pingu_iface) :
    (pingu_iface_usable iface ≠ 0 ↔
      iface.name = [] ∨ (iface.has_link ≠ 0 ∧ iface.has_binding ≠ 0)) ∧
    (pingu_iface_usable iface = 1 ∨ pingu_iface_usable iface = 0) ∧
    pingu_iface_usable { iface with name := eth0, has_binding := 0 } = 0 ∧
    pingu_iface_usable { iface with name := [] } = 1 := by
  refine ⟨?_, ?_, ?_, ?_⟩
  · unfold pingu_iface_usable
    by_cases hn : iface.name = []
    · simp [hn]
    · by_cases hf : iface.has_link ≠ 0 ∧ iface.has_binding ≠ 0
      · simp [hn, hf]
      · simp only [hn, if_false, hf, false_or]
        simp
  · unfold pingu_iface_usable
    split
    · exact Or.inl rfl
    · split
      · exact Or.inl rfl
      · exact Or.inr rfl
  · simp [pingu_iface_usable, eth0]
  · simp [pingu_iface_usable]


/-- C6: on a named interface `pingu_iface_bind_socket` returns the outcome `r`
of the bind call, sets `has_binding` to 1 when `r = 0` and to 0 otherwise (so
to 0 when `r < 0`), whatever it was before, logs exactly when `r < 0` and
`log_error` is set, and changes nothing else; afterwards the interface is
usable if and only if `has_link` is set and the bind succeeded. -/
theorem bind_socket_sets_binding (iface : pingu_iface) (log_error r : Int)
    (hname : iface.name ≠ []) :
    (pingu_iface_bind_socket iface log_error r).1 = r ∧
    (pingu_iface_bind_socket iface log_error r).2.1 =
      { iface with has_binding := if r = 0 then 1 else 0 } ∧
    ((pingu_iface_bind_socket iface log_error r).2.1.has_binding ≠ 0 ↔ r = 0) ∧
    (r < 0 → (pingu_iface_bind_socket iface log_error r).2.1.has_binding = 0) ∧
    ((pingu_iface_bind_socket iface log_error r).2.2 ≠ [] ↔ r < 0 ∧ log_error ≠ 0) ∧
    (pingu_iface_usable (pingu_iface_bind_socket iface log_error r).2.1 ≠ 0 ↔
      iface.has_link ≠ 0 ∧ r = 0) := by
  have hb : pingu_iface_bind_socket iface log_error r =
      (r, { iface with has_binding := if r = 0 then 1 else 0 },
        if r < 0 ∧ log_error ≠ 0 then [LogMsg.perror_name iface.name] else []) := by
    simp [pingu_iface_bind_socket, hname]
  rw [hb]
  refine ⟨rfl, rfl, ?_, ?_, ?_, ?_⟩
  · by_cases h0 : r = 0 <;> simp [h0]
  · intro hr
    have h0 : r ≠ 0 := by omega
    simp [h0]
  · by_cases hl : r < 0 ∧ log_error ≠ 0
    · simp [hl]
    · simp only [hl, if_false, iff_false]
      simp
  · by_cases h0 : r = 0 <;> by_cases hl : iface.has_link = 0 <;>
      simp [pingu_iface_usable, hname, h0, hl]

/-- A named interface with a link: binding fails with -1 and is logged. -/
theorem bind_socket_sets_binding_witness :
    ({ calloc_iface with name := eth0, has_link := 1 } : pingu_iface).name ≠ [] ∧
    (pingu_iface_bind_socket { calloc_iface with name := eth0, has_link := 1 } 1 (-1)).1
      = -1 :=
  ⟨by decide,
    (bind_socket_sets_binding { calloc_iface with name := eth0, has_link := 1 } 1 (-1)
      (by decide)).1⟩

/-- C7: `pingu_iface_get_by_index` leaves the state as it is; when some
registered interface has the index it returns a registered interface with
that index; it returns `NULL` exactly when no registered interface has the
index. -/
theorem get_by_index_finds (s : State) (index : Int) :
    (pingu_iface_get_by_index s index).2 = s ∧
    ((∃ e ∈ s.iface_list, e.2.index = index) →
      ∃ p i, (pingu_iface_get_by_index s index).1 = some p ∧
        (p, i) ∈ s.iface_list ∧ i.index = index) ∧
    (∀ p, (pingu_iface_get_by_index s index).1 = some p →
      ∃ i, (p, i) ∈ s.iface_list ∧ i.index = index) ∧
    ((pingu_iface_get_by_index s index).1 = none ↔
      ∀ e ∈ s.iface_list, e.2.index ≠ index) := by
  have hsome : ∀ p, (pingu_iface_get_by_index s index).1 = some p →
      ∃ i, (p, i) ∈ s.iface_list ∧ i.index = index := by
    intro p hp
    simp only [pingu_iface_get_by_index, Option.map_eq_some'] at hp
    obtain ⟨e, he, rfl⟩ := hp
    have h1 := List.find?_some he
    have h2 := List.mem_of_find?_eq_some he
    exact ⟨e.2, h2, by simpa using h1⟩
  have hnone : (pingu_iface_get_by_index s index).1 = none ↔
      ∀ e ∈ s.iface_list, e.2.index ≠ index := by
    simp [pingu_iface_get_by_index, List.find?_eq_none]
  refine ⟨rfl, ?_, hsome, hnone⟩
  rintro ⟨e, he, hidx⟩
  cases hres : (pingu_iface_get_by_index s index).1 with
  | none => exact absurd hidx (hnone.mp hres e he)
  | some p =>
    obtain ⟨i, hi, hii⟩ := hsome p hres
    exact ⟨p, i, rfl, hi, hii⟩

/-- A registry with two interfaces of kernel index 7: the first is returned. -/
theorem get_by_index_finds_witness :
    ∃ p i, (pingu_iface_get_by_index
        { State.empty with
          iface_list := [(2, { calloc_iface with name := eth0, index := 7 }),
                         (1, { calloc_iface with index := 7 })] } 7).1 = some p ∧
      (p, i) ∈ [(2, { calloc_iface with name := eth0, index := 7 }),
                (1, { calloc_iface with index := 7 })] ∧ i.index = 7 :=
  (get_by_index_finds
    { State.empty with
      iface_list := [(2, { calloc_iface with name := eth0, index := 7 }),
                     (1, { calloc_iface with index := 7 })] } 7).2.1
    ⟨(2, { calloc_iface with name := eth0, index := 7 }), by decide, by decide⟩


/-- C8: `pingu_iface_set_addr` replaces the address.  With `AF_INET` and the
four bytes `b0 b1 b2 b3` the new `primary_addr` has family `AF_INET`, the
IPv4 address bytes `b0 b1 b2 b3` and zero everywhere else; with `len <= 0`
it is all zero whatever family and data are; the result does not depend on
the previous address; and a second call with the same arguments changes
nothing. -/
theorem set_addr_replaces (iface : pingu_iface) (b0 b1 b2 b3 : Nat) (family : Int)
    (data : List Nat) (len : Int) (prev : sockaddr) :
    (pingu_iface_set_addr iface AF_INET [b0, b1, b2, b3] 4).map Prod.fst =
      some { iface with
             primary_addr :=
               { sa_family := 2,
                 sa_data := [0, 0, b0, b1, b2, b3, 0, 0, 0, 0, 0, 0, 0, 0] } } ∧
    (len ≤ 0 →
      (pingu_iface_set_addr iface family data len).map Prod.fst =
        some { iface with
               primary_addr :=
                 { sa_family := 0,
                   sa_data := [0, 0, 0, 0, 0, 0, 0, 0, 0, 0, 0, 0, 0, 0] } }) ∧
    (pingu_iface_set_addr { iface with primary_addr := prev } family data len).map Prod.fst =
      (pingu_iface_set_addr iface family data len).map Prod.fst ∧
    ((pingu_iface_set_addr iface family data len).bind
        (fun r => pingu_iface_set_addr r.1 family data len)).map Prod.fst =
      (pingu_iface_set_addr iface family data len).map Prod.fst := by
  refine ⟨?_, ?_, ?_, ?_⟩
  · simp [pingu_iface_set_addr, AF_INET]
  · intro hlen
    simp [pingu_iface_set_addr, hlen, sockaddr_zero]
  · unfold pingu_iface_set_addr
    split
    · rfl
    · split
      · split <;> rfl
      · rfl
  · unfold pingu_iface_set_addr
    split_ifs <;> simp_all

/-- An address removal: the length is zero. -/
theorem set_addr_replaces_witness :
    (0 : Int) ≤ 0 ∧
    (pingu_iface_set_addr { calloc_iface with name := eth0 } AF_INET [10, 0, 0, 1] 0).map
        Prod.fst =
      some { ({ calloc_iface with name := eth0 } : pingu_iface) with
             primary_addr :=
               { sa_family := 0,
                 sa_data := [0, 0, 0, 0, 0, 0, 0, 0, 0, 0, 0, 0, 0, 0] } } :=
  ⟨by decide,
    (set_addr_replaces { calloc_iface with name := eth0 } 10 0 0 1 AF_INET [10, 0, 0, 1] 0
      sockaddr_zero).2.1 (by decide)⟩

/-- C9, as stated, fails: with `AF_INET` and a length of 13 the copy runs one
byte past `primary_addr`, so the call is not an update of `primary_addr`
alone. -/
theorem set_addr_frame_counterexample :
    ¬ ∃ r, pingu_iface_set_addr { calloc_iface with name := eth0 } AF_INET
        [1, 2, 3, 4, 5, 6, 7, 8, 9, 10, 11, 12, 13] 13 = some r ∧
      r.1.name = eth0 ∧ r.1.has_link = 0 ∧ r.1.has_binding = 0 ∧ r.1.index = 0 ∧
      r.1.route_table = 0 ∧ r.1.ping_list = [] := by
  decide

/-- C9, amended: whenever the copy stays inside `primary_addr` (the length is
not positive, or the family is not `AF_INET`, or the length is at most 12 and
at most the size of the payload), `pingu_iface_set_addr` returns, changes
only `primary_addr`, and `pingu_iface_usable` gives what it gave before. -/
theorem set_addr_frame (iface : pingu_iface) (family : Int) (data : List Nat) (len : Int)
    (hfit : len ≤ 0 ∨ family ≠ AF_INET ∨ (len ≤ 12 ∧ len ≤ data.length)) :
    ∃ r, pingu_iface_set_addr iface family data len = some r ∧
      r.1 = { iface with primary_addr := r.1.primary_addr } ∧
      r.1.name = iface.name ∧ r.1.has_link = iface.has_link ∧
      r.1.has_binding = iface.has_binding ∧ r.1.index = iface.index ∧
      r.1.fd = iface.fd ∧ r.1.route_table = iface.route_table ∧
      r.1.ping_list = iface.ping_list ∧
      pingu_iface_usable r.1 = pingu_iface_usable iface := by
  unfold pingu_iface_set_addr
  by_cases hlen : len ≤ 0
  · simp [hlen, pingu_iface_usable]
  · by_cases hfam : family = AF_INET
    · have h12 : len.toNat ≤ 12 ∧ len.toNat ≤ data.length := by
        rcases hfit with h | h | ⟨h1, h2⟩
        · exact absurd h hlen
        · exact absurd hfam h
        · constructor <;> omega
      simp [hlen, hfam, h12, pingu_iface_usable]
    · simp [hlen, hfam, pingu_iface_usable]

/-- A new IPv4 address on a bound interface with a link. -/
theorem set_addr_frame_witness :
    ((4 : Int) ≤ 0 ∨ AF_INET ≠ AF_INET ∨
      ((4 : Int) ≤ 12 ∧ (4 : Int) ≤ ([192, 168, 1, 7] : List Nat).length)) ∧
    ∃ r, pingu_iface_set_addr
        { calloc_iface with name := eth0, has_link := 1, has_binding := 1 }
        AF_INET [192, 168, 1, 7] 4 = some r ∧
      pingu_iface_usable r.1 = 1 :=
  ⟨Or.inr (Or.inr (by decide)),
    by
      obtain ⟨r, hr, h⟩ := set_addr_frame
        { calloc_iface with name := eth0, has_link := 1, has_binding := 1 }
        AF_INET [192, 168, 1, 7] 4 (Or.inr (Or.inr (by decide)))
      exact ⟨r, hr, by rw [h.2.2.2.2.2.2.2.2]; decide⟩⟩

/-- C4: a host whose interface "eth0" is not in the registry, and a `socket`
call that fails with -1, or a `calloc` that returns no memory.
`pingu_iface_new` returns `NULL` and `pingu_iface_init` stores the route
table through that `NULL`: it faults instead of returning -1. -/
theorem iface_init_faults_when_socket_fails :
    (pingu_iface_new 16 State.empty (some eth0) true (-1)).1 = none ∧
    pingu_iface_init 16 (fun _ => (true, -1)) State.empty
      [{ interface := some eth0, iface := none }] = none ∧
    (pingu_iface_new 16 State.empty (some eth0) false 3).1 = none ∧
    pingu_iface_init 16 (fun _ => (false, 3)) State.empty
      [{ interface := some eth0, iface := none }] = none := by
  decide

theorem name_matches_some (namesz : Nat) (n : List Nat) (iface : pingu_iface) :
    name_matches namesz (some n) iface = true ↔ n.take namesz = iface.name.take namesz := by
  simp [name_matches, strncmp_eq_zero_iff]

theorem iface_new_hit (namesz : Nat) (s : State) (name : Option (List Nat))
    (ok : Bool) (fd : Int) (p : Nat)
    (h : (pingu_iface_get_by_name namesz s name).1 = some p) :
    pingu_iface_new namesz s name ok fd = (some p, s) := by
  simp [pingu_iface_new, h]

theorem iface_new_miss (namesz : Nat) (s : State) (name : Option (List Nat)) (fd : Int) :
    (pingu_iface_get_by_name namesz s name).1 = none → 0 ≤ fd →
    pingu_iface_new namesz s name true fd =
      (some (fresh_addr s.iface_list),
        { s with
          iface_list :=
            (fresh_addr s.iface_list,
              { calloc_iface with
                name := (match name with
                  | some n => strlcpy n namesz
                  | none => []),
                fd := fd }) :: s.iface_list,
          watchers := s.watchers ++ [fd] }) := by
  intro h hfd
  have hfd2 : ¬ fd < 0 := by omega
  cases name <;>
    simp [pingu_iface_new, h, pingu_iface_init_socket, hfd2, list_add, calloc_iface]

theorem iface_new_list (namesz : Nat) (s : State) (name : Option (List Nat))
    (ok : Bool) (fd : Int) :
    (pingu_iface_new namesz s name ok fd).2.iface_list = s.iface_list ∨
    ∃ e, (pingu_iface_new namesz s name ok fd).2.iface_list = e :: s.iface_list := by
  unfold pingu_iface_new
  split
  · exact Or.inl rfl
  · split
    · exact Or.inl rfl
    · simp only [pingu_iface_init_socket]
      split_ifs <;> simp [list_add]


theorem get_by_name_head_self (namesz : Nat) (s : State) (n : List Nat) (p : Nat)
    (i : pingu_iface) (l : List (Nat × pingu_iface)) (hl : s.iface_list = (p, i) :: l)
    (hi : i.name = n.take (namesz - 1)) (hlen : n.length < namesz) :
    (pingu_iface_get_by_name namesz s (some n)).1 = some p := by
  have hm : name_matches namesz (some n) i = true := by
    rw [name_matches_some, hi]
    rw [List.take_of_length_le (by omega : n.length ≤ namesz - 1)]
  simp [pingu_iface_get_by_name, hl, List.find?_cons, hm]

/-- C3, as stated, fails for an absent name and for a name that fills the
buffer: on the empty registry two calls with `NULL`, and two calls with a
16-byte name for a 16-byte buffer, create two different entries. -/
theorem iface_new_idempotent_counterexample :
    (pingu_iface_new 16 (pingu_iface_new 16 State.empty none true 3).2 none true 4).1 ≠
      (pingu_iface_new 16 State.empty none true 3).1 ∧
    (pingu_iface_new 16 (pingu_iface_new 16 State.empty none true 3).2 none true
      4).2.iface_list.length = 2 ∧
    (pingu_iface_new 16
      (pingu_iface_new 16 State.empty (some (List.replicate 16 97)) true 3).2
      (some (List.replicate 16 97)) true 4).1 ≠
      (pingu_iface_new 16 State.empty (some (List.replicate 16 97)) true 3).1 ∧
    (pingu_iface_new 16
      (pingu_iface_new 16 State.empty (some (List.replicate 16 97)) true 3).2
      (some (List.replicate 16 97)) true 4).2.iface_list.length = 2 := by
  decide

/-- C3, amended: for a name (possibly empty) shorter than the name buffer and
a first call whose `calloc` and `socket` succeed, `pingu_iface_new` returns an
interface and adds at most one entry in front of the registry; a second call
with the same name returns the same interface and leaves the state as it is;
and whenever the lookup finds an interface, for any name, that interface is
returned and the state, its sockets included, is untouched. -/
theorem iface_new_idempotent (namesz : Nat) (s : State) (n : List Nat) (ok2 : Bool)
    (fd1 fd2 : Int) (hlen : n.length < namesz) (hfd : 0 ≤ fd1) :
    (∃ p, (pingu_iface_new namesz s (some n) true fd1).1 = some p) ∧
    ((pingu_iface_new namesz s (some n) true fd1).2.iface_list = s.iface_list ∨
      ∃ e, (pingu_iface_new namesz s (some n) true fd1).2.iface_list =
        e :: s.iface_list) ∧
    (pingu_iface_new namesz (pingu_iface_new namesz s (some n) true fd1).2 (some n) ok2
      fd2).1 = (pingu_iface_new namesz s (some n) true fd1).1 ∧
    (pingu_iface_new namesz (pingu_iface_new namesz s (some n) true fd1).2 (some n) ok2
      fd2).2 = (pingu_iface_new namesz s (some n) true fd1).2 ∧
    (∀ (name : Option (List Nat)) (ok : Bool) (fd : Int) (p : Nat),
      (pingu_iface_get_by_name namesz s name).1 = some p →
        pingu_iface_new namesz s name ok fd = (some p, s)) := by
  refine ⟨?_, iface_new_list namesz s (some n) true fd1, ?_, ?_,
    fun name ok fd p h => iface_new_hit namesz s name ok fd p h⟩
  · cases h : (pingu_iface_get_by_name namesz s (some n)).1 with
    | some p => exact ⟨p, by rw [iface_new_hit namesz s (some n) true fd1 p h]⟩
    | none => exact ⟨_, by rw [iface_new_miss namesz s (some n) fd1 h hfd]⟩
  · cases h : (pingu_iface_get_by_name namesz s (some n)).1 with
    | some p =>
      rw [iface_new_hit namesz s (some n) true fd1 p h]
      rw [iface_new_hit namesz s (some n) ok2 fd2 p h]
    | none =>
      rw [iface_new_miss namesz s (some n) fd1 h hfd]
      rw [iface_new_hit namesz _ (some n) ok2 fd2 (fresh_addr s.iface_list)
        (get_by_name_head_self namesz _ n _ _ _ rfl rfl hlen)]
  · cases h : (pingu_iface_get_by_name namesz s (some n)).1 with
    | some p =>
      rw [iface_new_hit namesz s (some n) true fd1 p h]
      rw [iface_new_hit namesz s (some n) ok2 fd2 p h]
    | none =>
      rw [iface_new_miss namesz s (some n) fd1 h hfd]
      rw [iface_new_hit namesz _ (some n) ok2 fd2 (fresh_addr s.iface_list)
        (get_by_name_head_self namesz _ n _ _ _ rfl rfl hlen)]

/-- The name "eth0" and a 16-byte buffer: the second call, even with failing
system calls, returns the interface of the first. -/
theorem iface_new_idempotent_witness :
    eth0.length < 16 ∧ (0 : Int) ≤ 3 ∧
    (pingu_iface_new 16 (pingu_iface_new 16 State.empty (some eth0) true 3).2 (some eth0)
      false (-1)).1 = (pingu_iface_new 16 State.empty (some eth0) true 3).1 :=
  ⟨by decide, by decide,
    (iface_new_idempotent 16 State.empty eth0 false 3 (-1) (by decide) (by decide)).2.2.1⟩

/-- C10: for a non-empty name that the lookup does not find, a name buffer of
at least two bytes and succeeding `calloc` and `socket`, `pingu_iface_new`
puts a new entry in front of the registry and returns it; the entry carries
the name cut to the buffer, has no link, no binding, kernel index 0, a zero
address and no hosts; it is unusable, stays unusable after a link-up alone or
a successful bind alone, and after both is usable exactly when the link flag
is set and the bind returned 0.  For every argument `pingu_iface_new` leaves
the old entries of the registry in place. -/
theorem iface_new_starts_unusable (namesz : Nat) (s : State) (n : List Nat) (fd : Int)
    (hsz : 2 ≤ namesz) (hn : n ≠ [])
    (hmiss : (pingu_iface_get_by_name namesz s (some n)).1 = none) (hfd : 0 ≤ fd) :
    ∃ p i,
      pingu_iface_new namesz s (some n) true fd =
        (some p, { s with iface_list := (p, i) :: s.iface_list,
                          watchers := s.watchers ++ [fd] }) ∧
      (p, i) ∈ (pingu_iface_new namesz s (some n) true fd).2.iface_list ∧
      (∀ e ∈ s.iface_list, e.1 ≠ p) ∧
      i.name = n.take (namesz - 1) ∧ i.name ≠ [] ∧
      i.has_link = 0 ∧ i.has_binding = 0 ∧ i.index = 0 ∧
      i.primary_addr = { sa_family := 0, sa_data := List.replicate 14 0 } ∧
      i.ping_list = [] ∧
      pingu_iface_usable i = 0 ∧
      (∀ hl : Int, pingu_iface_usable { i with has_link := hl } = 0) ∧
      (∀ log_error r : Int,
        pingu_iface_usable (pingu_iface_bind_socket i log_error r).2.1 = 0) ∧
      (∀ hl log_error r : Int,
        pingu_iface_usable
            (pingu_iface_bind_socket { i with has_link := hl } log_error r).2.1 ≠ 0 ↔
          hl ≠ 0 ∧ r = 0) ∧
      (∀ (name : Option (List Nat)) (ok : Bool) (sock : Int),
        (pingu_iface_new namesz s name ok sock).2.iface_list = s.iface_list ∨
        ∃ e, (pingu_iface_new namesz s name ok sock).2.iface_list = e :: s.iface_list) := by
  have hne : n.take (namesz - 1) ≠ [] := by
    cases n with
    | nil => exact absurd rfl hn
    | cons a t =>
      obtain ⟨k, hk⟩ : ∃ k, namesz - 1 = k + 1 := ⟨namesz - 2, by omega⟩
      rw [hk]
      simp
  refine ⟨fresh_addr s.iface_list,
    { calloc_iface with name := n.take (namesz - 1), fd := fd }, ?_, ?_, ?_, rfl, hne,
    rfl, rfl, rfl, rfl, rfl, ?_, ?_, ?_, ?_, ?_⟩
  · rw [iface_new_miss namesz s (some n) fd hmiss hfd]
    rfl
  · rw [iface_new_miss namesz s (some n) fd hmiss hfd]
    simp [strlcpy]
  · intro e he
    have := fresh_addr_gt s.iface_list e he
    omega
  · simp [pingu_iface_usable, hne, calloc_iface]
  · intro hl
    simp [pingu_iface_usable, hne, calloc_iface]
  · intro log_error r
    simp [pingu_iface_usable, pingu_iface_bind_socket, hne, calloc_iface]
  · intro hl log_error r
    by_cases h0 : r = 0 <;> by_cases h1 : hl = 0 <;>
      simp [pingu_iface_usable, pingu_iface_bind_socket, hne, calloc_iface, h0, h1]
  · intro name ok sock
    exact iface_new_list namesz s name ok sock

/-- The first interface "eth0" of a process. -/
theorem iface_new_starts_unusable_witness :
    2 ≤ 16 ∧ eth0 ≠ [] ∧
    (pingu_iface_get_by_name 16 State.empty (some eth0)).1 = none ∧ (0 : Int) ≤ 3 ∧
    ∃ p i, pingu_iface_new 16 State.empty (some eth0) true 3 =
        (some p, { State.empty with iface_list := (p, i) :: State.empty.iface_list,
                                    watchers := State.empty.watchers ++ [3] }) ∧
      pingu_iface_usable i = 0 :=
  ⟨by decide, by decide, by decide, by decide,
    by
      obtain ⟨p, i, h1, _, _, _, _, _, _, _, _, _, h2, _⟩ :=
        iface_new_starts_unusable 16 State.empty eth0 3 (by decide) (by decide)
          (by decide) (by decide)
      exact ⟨p, i, h1, h2⟩⟩


theorem set_route_table_fresh (s : State) (i : pingu_iface) (w : List Int) (v : Int) :
    set_route_table
        { s with iface_list := (fresh_addr s.iface_list, i) :: s.iface_list, watchers := w }
        (fresh_addr s.iface_list) v =
      { s with
        iface_list := (fresh_addr s.iface_list, { i with route_table := v }) :: s.iface_list,
        watchers := w } := by
  have hmap : ∀ l : List (Nat × pingu_iface), (∀ e ∈ l, e.1 ≠ fresh_addr s.iface_list) →
      l.map (fun e => if e.1 = fresh_addr s.iface_list
        then (e.1, { e.2 with route_table := v }) else e) = l := by
    intro l hl
    induction l with
    | nil => rfl
    | cons a l ih =>
      simp only [List.map_cons]
      rw [ih (fun e he => hl e (List.mem_cons_of_mem _ he))]
      simp [hl a (List.mem_cons_self _ _)]
  have hfresh : ∀ e ∈ s.iface_list, e.1 ≠ fresh_addr s.iface_list := by
    intro e he
    have := fresh_addr_gt s.iface_list e he
    omega
  simp only [set_route_table, List.map_cons, if_true]
  rw [hmap s.iface_list hfresh]

theorem opt_match_map (X : Option (Int × State × List pingu_host)) (h : pingu_host) :
    (match X with
      | none => none
      | some (r, s2, rest1) => some (r, s2, h :: rest1)) =
    X.map (fun r => (r.1, r.2.1, h :: r.2.2)) := by
  cases X <;> rfl

theorem init_loop_hit (namesz : Nat) (env : Nat → Bool × Int) (a : Int) (s : State)
    (host : pingu_host) (rest : List pingu_host) (p : Nat)
    (h : (pingu_iface_get_by_name namesz s host.interface).1 = some p) :
    init_loop namesz env a s (host :: rest) =
      (init_loop namesz (fun n => env (n + 1)) a s rest).map
        (fun r => (r.1, r.2.1, { host with iface := some p } :: r.2.2)) := by
  simp only [init_loop, h]
  cases init_loop namesz (fun n => env (n + 1)) a s rest <;> rfl

theorem init_loop_miss (namesz : Nat) (env : Nat → Bool × Int) (a : Int) (s : State)
    (host : pingu_host) (rest : List pingu_host)
    (h : (pingu_iface_get_by_name namesz s host.interface).1 = none)
    (hok : (env 0).1 = true) (hfd : 0 ≤ (env 0).2) :
    init_loop namesz env a s (host :: rest) =
      (init_loop namesz (fun n => env (n + 1)) (a + 1)
        { s with
          iface_list :=
            (fresh_addr s.iface_list,
              { calloc_iface with
                name := (match host.interface with
                  | some n => strlcpy n namesz
                  | none => []),
                fd := (env 0).2,
                route_table := a }) :: s.iface_list,
          watchers := s.watchers ++ [(env 0).2] } rest).map
        (fun r => (r.1, r.2.1,
          { host with iface := some (fresh_addr s.iface_list) } :: r.2.2)) := by
  simp only [init_loop, h, hok, iface_new_miss namesz s host.interface (env 0).2 h hfd,
    set_route_table_fresh]
  exact opt_match_map _ _

theorem init_loop_fault (namesz : Nat) (env : Nat → Bool × Int) (a : Int) (s : State)
    (host : pingu_host) (rest : List pingu_host)
    (h : (pingu_iface_get_by_name namesz s host.interface).1 = none)
    (hfail : (env 0).1 = false ∨ (env 0).2 < 0) :
    init_loop namesz env a s (host :: rest) = none := by
  have hnew : (pingu_iface_new namesz s host.interface (env 0).1 (env 0).2).1 = none := by
    simp only [pingu_iface_new, h, pingu_iface_init_socket]
    rcases hfail with hc | hs
    · simp [hc]
    · split_ifs <;> simp_all
  simp only [init_loop, h]
  cases hr : pingu_iface_new namesz s host.interface (env 0).1 (env 0).2 with
  | mk r s1 =>
    rw [hr] at hnew
    simp only at hnew
    subst hnew
    rfl


theorem take_eq_of_short (namesz : Nat) (m n : List Nat) (hm : m.length < namesz)
    (hn : n.length < namesz) (h : m.take namesz = n.take namesz) : m = n := by
  rwa [List.take_of_length_le (by omega), List.take_of_length_le (by omega)] at h

theorem get_by_name_cons (namesz : Nat) (s : State) (e : Nat × pingu_iface)
    (l : List (Nat × pingu_iface)) (w : List Int) (name : Option (List Nat)) :
    (pingu_iface_get_by_name namesz { s with iface_list := e :: l, watchers := w } name).1 =
      if name_matches namesz name e.2 = true then some e.1
      else (pingu_iface_get_by_name namesz { s with iface_list := l } name).1 := by
  simp only [pingu_iface_get_by_name, List.find?_cons]
  cases name_matches namesz name e.2 <;> simp

theorem get_by_name_entry (namesz : Nat) (s : State) (n : List Nat) (p : Nat)
    (h : (pingu_iface_get_by_name namesz s (some n)).1 = some p) :
    ∃ i, (p, i) ∈ s.iface_list ∧ n.take namesz = i.name.take namesz := by
  simp only [pingu_iface_get_by_name, Option.map_eq_some'] at h
  obtain ⟨e, he, rfl⟩ := h
  exact ⟨e.2, List.mem_of_find?_eq_some he,
    (name_matches_some namesz n e.2).mp (by simpa using List.find?_some he)⟩

theorem init_loop_assigns (namesz : Nat) (hosts : List pingu_host) :
    ∀ (env : Nat → Bool × Int) (a : Int) (s : State),
      all_succeed env →
      (∀ e ∈ s.iface_list, e.2.name.length < namesz) →
      (∀ h ∈ hosts, ∃ n, h.interface = some n ∧ n.length < namesz) →
      ∃ s1 hosts1, init_loop namesz env a s hosts = some (0, s1, hosts1) ∧
        hosts1.map pingu_host.interface = hosts.map pingu_host.interface ∧
        (∀ e ∈ s1.iface_list, e.2.name.length < namesz) ∧
        (∀ (n : List Nat) (p : Nat), n.length < namesz →
          (pingu_iface_get_by_name namesz s (some n)).1 = some p →
          (pingu_iface_get_by_name namesz s1 (some n)).1 = some p) ∧
        (∀ h ∈ hosts1, ∃ p, h.iface = some p ∧
          (pingu_iface_get_by_name namesz s1 h.interface).1 = some p) := by
  induction hosts with
  | nil =>
    intro env a s _ hwf _
    exact ⟨s, [], rfl, rfl, hwf, fun _ _ _ h => h, by simp⟩
  | cons host rest ih =>
    intro env a s hsucc hwf hnames
    obtain ⟨n, hn, hlen⟩ := hnames host (List.mem_cons_self _ _)
    have hrest : ∀ h ∈ rest, ∃ n, h.interface = some n ∧ n.length < namesz :=
      fun h hh => hnames h (List.mem_cons_of_mem _ hh)
    have hsucc1 : all_succeed (fun k => env (k + 1)) := fun k => hsucc (k + 1)
    cases hlook : (pingu_iface_get_by_name namesz s host.interface).1 with
    | some p =>
      obtain ⟨s1, hosts1, hrun, hmap, hwf1, hext, hall⟩ := ih _ a s hsucc1 hwf hrest
      refine ⟨s1, { host with iface := some p } :: hosts1, ?_, ?_, hwf1, hext, ?_⟩
      · rw [init_loop_hit namesz env a s host rest p hlook, hrun]
        rfl
      · simp [hmap]
      · intro h hh
        rcases List.mem_cons.mp hh with rfl | hh
        · refine ⟨p, rfl, ?_⟩
          rw [hn] at hlook ⊢
          exact hext n p hlen hlook
        · exact hall h hh
    | none =>
      have hwf0 : ∀ e ∈ ((fresh_addr s.iface_list,
          ({ calloc_iface with
              name := (match host.interface with
                | some n => strlcpy n namesz
                | none => []),
              fd := (env 0).2, route_table := a } : pingu_iface)) :: s.iface_list),
          e.2.name.length < namesz := by
        intro e he
        rcases List.mem_cons.mp he with rfl | he
        · simp only [hn, strlcpy, List.length_take]
          omega
        · exact hwf e he
      obtain ⟨s1, hosts1, hrun, hmap, hwf1, hext, hall⟩ :=
        ih _ (a + 1) { s with
          iface_list :=
            (fresh_addr s.iface_list,
              { calloc_iface with
                name := (match host.interface with
                  | some n => strlcpy n namesz
                  | none => []),
                fd := (env 0).2,
                route_table := a }) :: s.iface_list,
          watchers := s.watchers ++ [(env 0).2] } hsucc1 hwf0 hrest
      refine ⟨s1, { host with iface := some (fresh_addr s.iface_list) } :: hosts1,
        ?_, ?_, hwf1, ?_, ?_⟩
      · rw [init_loop_miss namesz env a s host rest hlook (hsucc 0).1 (hsucc 0).2, hrun]
        rfl
      · simp [hmap]
      · intro m q hm hq
        apply hext m q hm
        rw [get_by_name_cons]
        have hno : ¬ name_matches namesz (some m)
            ({ calloc_iface with
                name := (match host.interface with
                  | some n => strlcpy n namesz
                  | none => []),
                fd := (env 0).2, route_table := a } : pingu_iface) = true := by
          rw [name_matches_some]
          simp only [hn, strlcpy]
          intro hmn
          rw [List.take_of_length_le (by omega : n.length ≤ namesz - 1)] at hmn
          have hmn2 := take_eq_of_short namesz m n hm hlen hmn
          rw [hn, ← hmn2, hq] at hlook
          exact Option.noConfusion hlook
        rw [if_neg hno]
        rw [← hq]
      · intro h hh
        rcases List.mem_cons.mp hh with rfl | hh
        · refine ⟨fresh_addr s.iface_list, rfl, ?_⟩
          show (pingu_iface_get_by_name namesz s1 host.interface).1 = _
          rw [hn]
          apply hext n _ hlen
          apply get_by_name_head_self namesz _ n _ _ _ rfl _ hlen
          simp [hn, strlcpy]
        · exact hall h hh


/-- C2, as stated, fails.  Two hosts that configure no interface get two
different entries (addresses 1 and 2) on the empty registry, and a host
whose interface name fills the 16-byte buffer is given an interface that
carries only the first 15 bytes of the name. -/
theorem iface_init_assigns_counterexample :
    (pingu_iface_init 16 (fun n => (true, 3 + (n : Int))) State.empty
        [{ interface := none, iface := none }, { interface := none, iface := none }]).map
      (fun r => (r.1, r.2.2)) =
      some (0, [{ interface := none, iface := some 1 },
                { interface := none, iface := some 2 }]) ∧
    (pingu_iface_init 16 (fun n => (true, 3 + (n : Int))) State.empty
        [{ interface := some (List.replicate 16 97), iface := none }]).map
      (fun r => (r.2.2, r.2.1.iface_list.map (fun e => (e.1, e.2.name)))) =
      some ([{ interface := some (List.replicate 16 97), iface := some 1 }],
        [(1, List.replicate 15 97)]) := by
  decide

/-- C2, amended: when every host configures an interface name (possibly the
empty string) shorter than the name buffer, the names stored in the registry
are shorter than the buffer, and every `calloc` and `socket` call succeeds,
`pingu_iface_init` returns 0, keeps the hosts and their configured names,
gives every host an owning interface that is in the registry and carries
exactly the configured name, and gives two hosts with the same configured
name the same interface. -/
theorem iface_init_assigns (namesz : Nat) (env : Nat → Bool × Int) (s : State)
    (hosts : List pingu_host) (hsucc : all_succeed env)
    (hwf : ∀ e ∈ s.iface_list, e.2.name.length < namesz)
    (hnames : ∀ h ∈ hosts, ∃ n, h.interface = some n ∧ n.length < namesz) :
    ∃ s1 hosts1, pingu_iface_init namesz env s hosts = some (0, s1, hosts1) ∧
      hosts1.map pingu_host.interface = hosts.map pingu_host.interface ∧
      (∀ h ∈ hosts1, ∃ p i, h.iface = some p ∧ (p, i) ∈ s1.iface_list ∧
        h.interface = some i.name) ∧
      (∀ h1 ∈ hosts1, ∀ h2 ∈ hosts1, h1.interface = h2.interface → h1.iface = h2.iface) := by
  obtain ⟨s1, hosts1, hrun, hmap, hwf1, _, hall⟩ :=
    init_loop_assigns namesz hosts env 10 s hsucc hwf hnames
  refine ⟨s1, hosts1, hrun, hmap, ?_, ?_⟩
  · intro h hh
    obtain ⟨p, hp, hlook⟩ := hall h hh
    have hmem : h.interface ∈ hosts.map pingu_host.interface := by
      rw [← hmap]
      exact List.mem_map_of_mem _ hh
    obtain ⟨h0, hh0, hint⟩ := List.mem_map.mp hmem
    obtain ⟨n, hn, hlen⟩ := hnames h0 hh0
    rw [← hint, hn] at hlook
    obtain ⟨i, hi, htake⟩ := get_by_name_entry namesz s1 n p hlook
    refine ⟨p, i, hp, hi, ?_⟩
    rw [← hint, hn, take_eq_of_short namesz n i.name hlen (hwf1 (p, i) hi) htake]
  · intro h1 hh1 h2 hh2 heq
    obtain ⟨p1, hp1, hl1⟩ := hall h1 hh1
    obtain ⟨p2, hp2, hl2⟩ := hall h2 hh2
    rw [hp1, hp2, ← hl1, ← hl2, heq]

/-- Two hosts on "eth0", a 16-byte name buffer and the empty registry. -/
theorem iface_init_assigns_witness :
    all_succeed (fun n => (true, 3 + (n : Int))) ∧
    (∀ e ∈ State.empty.iface_list, e.2.name.length < 16) ∧
    (∀ h ∈ [({ interface := some eth0, iface := none } : pingu_host),
            { interface := some eth0, iface := none }],
      ∃ n, h.interface = some n ∧ n.length < 16) ∧
    ∃ s1 hosts1,
      pingu_iface_init 16 (fun n => (true, 3 + (n : Int))) State.empty
        [{ interface := some eth0, iface := none },
         { interface := some eth0, iface := none }] = some (0, s1, hosts1) ∧
      hosts1.map pingu_host.interface = [some eth0, some eth0] :=
  ⟨fun n => ⟨rfl, by positivity⟩, by simp [State.empty], by simp [eth0],
    by
      obtain ⟨s1, hosts1, h1, h2, _⟩ :=
        iface_init_assigns 16 (fun n => (true, 3 + (n : Int))) State.empty
          [{ interface := some eth0, iface := none },
           { interface := some eth0, iface := none }]
          (fun n => ⟨rfl, by positivity⟩) (by simp [State.empty]) (by simp [eth0])
      exact ⟨s1, hosts1, h1, h2⟩⟩


theorem get_by_name_none_iff (namesz : Nat) (s : State) (n : List Nat)
    (hwf : ∀ e ∈ s.iface_list, e.2.name.length < namesz) (hlen : n.length < namesz) :
    (pingu_iface_get_by_name namesz s (some n)).1 = none ↔
      n ∉ s.iface_list.map (fun e => e.2.name) := by
  simp only [pingu_iface_get_by_name, Option.map_eq_none', List.find?_eq_none,
    List.mem_map, not_exists, not_and]
  constructor
  · intro h e he hname
    apply h e he
    rw [name_matches_some, hname]
  · intro h e he hm
    rw [name_matches_some] at hm
    exact h e he (take_eq_of_short namesz n e.2.name hlen (hwf e he) hm).symm

theorem first_seen_aux_nodup (l : List (List Nat)) :
    ∀ acc : List (List Nat), acc.Nodup →
      (l.foldl (fun acc a => if a ∈ acc then acc else acc ++ [a]) acc).Nodup := by
  induction l with
  | nil => intro acc h; exact h
  | cons a l ih =>
    intro acc h
    simp only [List.foldl_cons]
    apply ih
    by_cases ha : a ∈ acc
    · simpa [ha] using h
    · simp only [ha, if_false]
      rw [List.nodup_append]
      refine ⟨h, List.nodup_singleton a, ?_⟩
      intro x hx hy
      simp only [List.mem_singleton] at hy
      exact ha (hy ▸ hx)

theorem init_loop_tables (namesz : Nat) (hosts : List pingu_host) :
    ∀ (env : Nat → Bool × Int) (a : Int) (s : State),
      all_succeed env →
      (∀ e ∈ s.iface_list, e.2.name.length < namesz) →
      (∀ h ∈ hosts, ∃ n, h.interface = some n ∧ n.length < namesz) →
      a = 10 + (s.iface_list.length : Int) →
      (∀ (k : Nat) (e : Nat × pingu_iface), s.iface_list.reverse[k]? = some e →
        e.2.route_table = 10 + (k : Int)) →
      ∃ s1 hosts1, init_loop namesz env a s hosts = some (0, s1, hosts1) ∧
        s1.iface_list.reverse.map (fun e => e.2.name) =
          (hosts.filterMap pingu_host.interface).foldl
            (fun acc a => if a ∈ acc then acc else acc ++ [a])
            (s.iface_list.reverse.map (fun e => e.2.name)) ∧
        (∀ (k : Nat) (e : Nat × pingu_iface), s1.iface_list.reverse[k]? = some e →
          e.2.route_table = 10 + (k : Int)) := by
  induction hosts with
  | nil =>
    intro env a s _ _ _ _ hrt
    exact ⟨s, [], rfl, rfl, hrt⟩
  | cons host rest ih =>
    intro env a s hsucc hwf hnames ha hrt
    obtain ⟨n, hn, hlen⟩ := hnames host (List.mem_cons_self _ _)
    have hrest : ∀ h ∈ rest, ∃ n, h.interface = some n ∧ n.length < namesz :=
      fun h hh => hnames h (List.mem_cons_of_mem _ hh)
    have hsucc1 : all_succeed (fun k => env (k + 1)) := fun k => hsucc (k + 1)
    have hfm : (host :: rest).filterMap pingu_host.interface =
        n :: rest.filterMap pingu_host.interface := by
      simp [List.filterMap_cons, hn]
    cases hlook : (pingu_iface_get_by_name namesz s host.interface).1 with
    | some p =>
      obtain ⟨s1, hosts1, hrun, hnm, hrt1⟩ := ih _ a s hsucc1 hwf hrest ha hrt
      refine ⟨s1, { host with iface := some p } :: hosts1, ?_, ?_, hrt1⟩
      · rw [init_loop_hit namesz env a s host rest p hlook, hrun]
        rfl
      · have hin : n ∈ s.iface_list.reverse.map (fun e => e.2.name) := by
          by_contra hnot
          have hnot2 : n ∉ s.iface_list.map (fun e => e.2.name) := by
            simpa using hnot
          rw [hn, (get_by_name_none_iff namesz s n hwf hlen).mpr hnot2] at hlook
          exact Option.noConfusion hlook
        rw [hnm, hfm, List.foldl_cons, if_pos hin]
    | none =>
      have hwf0 : ∀ e ∈ ((fresh_addr s.iface_list,
          ({ calloc_iface with
              name := (match host.interface with
                | some n => strlcpy n namesz
                | none => []),
              fd := (env 0).2, route_table := a } : pingu_iface)) :: s.iface_list),
          e.2.name.length < namesz := by
        intro e he
        rcases List.mem_cons.mp he with rfl | he
        · simp only [hn, strlcpy, List.length_take]
          omega
        · exact hwf e he
      have hname : (match host.interface with
          | some n => strlcpy n namesz
          | none => []) = n := by
        simp only [hn, strlcpy]
        exact List.take_of_length_le (by omega)
      obtain ⟨s1, hosts1, hrun, hnm, hrt1⟩ :=
        ih _ (a + 1) { s with
          iface_list :=
            (fresh_addr s.iface_list,
              { calloc_iface with
                name := (match host.interface with
                  | some n => strlcpy n namesz
                  | none => []),
                fd := (env 0).2,
                route_table := a }) :: s.iface_list,
          watchers := s.watchers ++ [(env 0).2] } hsucc1 hwf0 hrest
          (by simp only [List.length_cons]; push_cast; omega)
          (by
            intro k e hk
            simp only [List.reverse_cons] at hk
            by_cases hlt : k < s.iface_list.reverse.length
            · rw [List.getElem?_append_left hlt] at hk
              exact hrt k e hk
            · have hge : s.iface_list.reverse.length ≤ k := by omega
              rw [List.getElem?_append_right hge] at hk
              have hk0 : k - s.iface_list.reverse.length = 0 := by
                by_contra hne
                obtain ⟨j, hj⟩ : ∃ j, k - s.iface_list.reverse.length = j + 1 :=
                  ⟨k - s.iface_list.reverse.length - 1, by omega⟩
                rw [hj] at hk
                simp at hk
              rw [hk0] at hk
              simp only [List.getElem?_cons_zero, Option.some.injEq] at hk
              subst hk
              simp only [List.length_reverse] at hk0 hge
              show a = 10 + (k : Int)
              omega)
      refine ⟨s1, { host with iface := some (fresh_addr s.iface_list) } :: hosts1,
        ?_, ?_, hrt1⟩
      · rw [init_loop_miss namesz env a s host rest hlook (hsucc 0).1 (hsucc 0).2, hrun]
        rfl
      · have hnin : n ∉ s.iface_list.reverse.map (fun e => e.2.name) := by
          rw [hn] at hlook
          have := (get_by_name_none_iff namesz s n hwf hlen).mp hlook
          simpa using this
        rw [hnm, hfm, List.foldl_cons, if_neg hnin]
        simp only [List.reverse_cons, List.map_append, List.map_cons, List.map_nil, hname]


theorem init_loop_keeps (namesz : Nat) (hosts : List pingu_host) :
    ∀ (env : Nat → Bool × Int) (a : Int) (s : State), all_succeed env →
      ∃ s1 hosts1, init_loop namesz env a s hosts = some (0, s1, hosts1) ∧
        ∃ l, s1.iface_list = l ++ s.iface_list := by
  induction hosts with
  | nil =>
    intro env a s _
    exact ⟨s, [], rfl, [], rfl⟩
  | cons host rest ih =>
    intro env a s hsucc
    have hsucc1 : all_succeed (fun k => env (k + 1)) := fun k => hsucc (k + 1)
    cases hlook : (pingu_iface_get_by_name namesz s host.interface).1 with
    | some p =>
      obtain ⟨s1, hosts1, hrun, l, hl⟩ := ih _ a s hsucc1
      refine ⟨s1, { host with iface := some p } :: hosts1, ?_, l, hl⟩
      rw [init_loop_hit namesz env a s host rest p hlook, hrun]
      rfl
    | none =>
      obtain ⟨s1, hosts1, hrun, l, hl⟩ :=
        ih _ (a + 1) { s with
          iface_list :=
            (fresh_addr s.iface_list,
              { calloc_iface with
                name := (match host.interface with
                  | some n => strlcpy n namesz
                  | none => []),
                fd := (env 0).2,
                route_table := a }) :: s.iface_list,
          watchers := s.watchers ++ [(env 0).2] } hsucc1
      refine ⟨s1, { host with iface := some (fresh_addr s.iface_list) } :: hosts1, ?_,
        l ++ [(fresh_addr s.iface_list,
              { calloc_iface with
                name := (match host.interface with
                  | some n => strlcpy n namesz
                  | none => []),
                fd := (env 0).2,
                route_table := a })], ?_⟩
      · rw [init_loop_miss namesz env a s host rest hlook (hsucc 0).1 (hsucc 0).2, hrun]
        rfl
      · rw [hl]
        simp

/-- C5: when every host names an interface by a name shorter than the name
buffer and every `calloc` and `socket` call succeeds, `pingu_iface_init` on
an empty registry returns 0 and leaves a registry that holds, in order of
creation, one interface for each distinct name in order of first
appearance; the one created `k`-th (counting from 0), which carries the
`k`-th distinct name, has `route_table = 10 + k`.  On any registry `s0` and
host list `hosts0` the call returns 0 and the entries that were registered
before are still there, unchanged, behind the new ones. -/
theorem iface_init_route_tables (namesz : Nat) (env : Nat → Bool × Int) (s : State)
    (hosts : List pingu_host) (s0 : State) (hosts0 : List pingu_host)
    (hsucc : all_succeed env) (hempty : s.iface_list = [])
    (hnames : ∀ h ∈ hosts, ∃ n, h.interface = some n ∧ n.length < namesz) :
    (∃ s1 hosts1, pingu_iface_init namesz env s hosts = some (0, s1, hosts1) ∧
      s1.iface_list.reverse.map (fun e => e.2.name) =
        first_seen (hosts.filterMap pingu_host.interface) ∧
      (s1.iface_list.map (fun e => e.2.name)).Nodup ∧
      (∀ (k : Nat) (e : Nat × pingu_iface), s1.iface_list.reverse[k]? = some e →
        e.2.route_table = 10 + (k : Int)) ∧
      (∀ (k : Nat) (n : List Nat),
        (first_seen (hosts.filterMap pingu_host.interface))[k]? = some n →
        ∃ e ∈ s1.iface_list, e.2.name = n ∧ e.2.route_table = 10 + (k : Int))) ∧
    (∃ s1 hosts1, pingu_iface_init namesz env s0 hosts0 = some (0, s1, hosts1) ∧
      (∃ l, s1.iface_list = l ++ s0.iface_list) ∧
      ∀ e ∈ s0.iface_list, e ∈ s1.iface_list) := by
  constructor
  · obtain ⟨s1, hosts1, hrun, hnm, hrt⟩ :=
      init_loop_tables namesz hosts env 10 s hsucc (by simp [hempty]) hnames
        (by simp [hempty]) (by simp [hempty])
    have hnm1 : s1.iface_list.reverse.map (fun e => e.2.name) =
        first_seen (hosts.filterMap pingu_host.interface) := by
      rw [hnm, hempty]
      rfl
    refine ⟨s1, hosts1, hrun, hnm1, ?_, hrt, ?_⟩
    · have hnd : (first_seen (hosts.filterMap pingu_host.interface)).Nodup :=
        first_seen_aux_nodup _ [] List.nodup_nil
      rw [← hnm1, List.map_reverse, List.nodup_reverse] at hnd
      exact hnd
    · intro k n hk
      rw [← hnm1, List.getElem?_map] at hk
      cases he : s1.iface_list.reverse[k]? with
      | none => rw [he] at hk; exact Option.noConfusion hk
      | some e =>
        rw [he] at hk
        simp only [Option.map_some', Option.some.injEq] at hk
        have hmem : e ∈ s1.iface_list.reverse := by
          obtain ⟨hlt, hget⟩ := List.getElem?_eq_some.mp he
          exact hget ▸ List.getElem_mem hlt
        exact ⟨e, List.mem_reverse.mp hmem, hk, hrt k e he⟩
  · obtain ⟨s1, hosts1, hrun, l, hl⟩ := init_loop_keeps namesz hosts0 env 10 s0 hsucc
    refine ⟨s1, hosts1, hrun, ⟨l, hl⟩, ?_⟩
    intro e he
    rw [hl]
    exact List.mem_append_right _ he

/-- Hosts on "eth0", "eth1", "eth0" again and "wlan0": tables 10, 11, 12. -/
theorem iface_init_route_tables_witness :
    all_succeed (fun n => (true, 3 + (n : Int))) ∧ State.empty.iface_list = [] ∧
    (∀ h ∈ [({ interface := some eth0, iface := none } : pingu_host),
            { interface := some [101, 116, 104, 49], iface := none },
            { interface := some eth0, iface := none },
            { interface := some [119, 108, 97, 110, 48], iface := none }],
      ∃ n, h.interface = some n ∧ n.length < 16) ∧
    ∃ s1 hosts1,
      pingu_iface_init 16 (fun n => (true, 3 + (n : Int))) State.empty
        [{ interface := some eth0, iface := none },
         { interface := some [101, 116, 104, 49], iface := none },
         { interface := some eth0, iface := none },
         { interface := some [119, 108, 97, 110, 48], iface := none }] =
        some (0, s1, hosts1) ∧
      s1.iface_list.reverse.map (fun e => e.2.name) =
        [eth0, [101, 116, 104, 49], [119, 108, 97, 110, 48]] :=
  ⟨fun n => ⟨rfl, by positivity⟩, rfl, by simp [eth0],
    by
      obtain ⟨s1, hosts1, h1, h2, _⟩ :=
        (iface_init_route_tables 16 (fun n => (true, 3 + (n : Int))) State.empty
          [{ interface := some eth0, iface := none },
           { interface := some [101, 116, 104, 49], iface := none },
           { interface := some eth0, iface := none },
           { interface := some [119, 108, 97, 110, 48], iface := none }]
          State.empty [] (fun n => ⟨rfl, by positivity⟩) rfl (by simp [eth0])).1
      exact ⟨s1, hosts1, h1, by rw [h2]; decide⟩⟩

end Pingu
